import Mathlib

/-!
Shallow embedding of the `bootstrap` Go package (Preetam/bootstrap, file
`bootstrap.go`): aggregators (`SumAggregator`, `AverageAggregator`,
`QuantileAggregator`), the shared `quantile` helper, and the two resamplers
(`BasicResampler`, `PresampledResampler`), together with proofs of the frozen
claims about them.

Modelling conventions:
* Go `float64` is modelled as `Option ℚ` (`none` models NaN; no code path
  modelled here produces infinities or distinguishes `-0.0`).
* Go's `math/rand` source seeded with the fixed constant `0`
  (`rand.NewSource(0)`) is a deterministic generator; it is modelled abstractly
  by a stream `int63 : ℕ → ℕ` giving the successive `Int63()` outputs, with a
  cursor position stored where Go stores the source.  Every constructor uses
  the same stream because every constructor calls `rand.NewSource(0)`.
* A Go runtime panic (out-of-range index, invalid conversion) is modelled by
  `none` in an `Option` result.
* Methods that can mutate a caller-supplied slice return the contents of that
  slice after the call, so that frame effects are visible in the model.
-/

namespace Bootstrap

/-- Go `float64`, modelled as a rational; `none` models NaN. -/
abbrev GoFloat := Option ℚ

/-- The value `math.NaN()`. -/
def gNaN : GoFloat := none

/-- Go `float64` addition (`+=` in the aggregators); NaN propagates. -/
def gAdd : GoFloat → GoFloat → GoFloat
  | some a, some b => some (a + b)
  | _, _ => gNaN

/-- Go `float64` multiplication (`values[j] * float64(...)`); NaN propagates. -/
def gMul : GoFloat → GoFloat → GoFloat
  | some a, some b => some (a * b)
  | _, _ => gNaN

/-- Go `float64` division.  The only division in the source divides by
`float64(len(values))` with `len(values) > 0`, so the zero-denominator branch
(`±Inf` in Go) is unreachable there; it is mapped to NaN. -/
def gDiv : GoFloat → GoFloat → GoFloat
  | some a, some b => if b = 0 then gNaN else some (a / b)
  | _, _ => gNaN

/-- Go `<` on `float64`: any comparison involving NaN is false. -/
def gLt : GoFloat → GoFloat → Bool
  | some a, some b => decide (a < b)
  | _, _ => false

/-- The sortedness order guaranteed by `sort.Float64s`: adjacent elements
`a`, `b` of the result satisfy `!(b < a)`. -/
def goLe (a b : GoFloat) : Prop := gLt b a = false

instance : DecidableRel goLe := fun a b => inferInstanceAs (Decidable (gLt b a = false))

/-- Go `sort.Float64s`, which sorts a `[]float64` in place ascending.  On
NaN-free data every comparison sort produces the same (unique) result, so
insertion sort with the Go comparison models it exactly; Go leaves the result
unspecified when NaN is present, and the claims only constrain NaN-free data. -/
def sortFloat64s (l : List GoFloat) : List GoFloat := List.insertionSort goLe l

/-- Go conversion `int(x)` for `x : float64`: truncation toward zero. -/
def goInt (x : ℚ) : ℤ := if 0 ≤ x then ⌊x⌋ else -⌊-x⌋

/-- bootstrap.go `quantile(vals []float64, q float64) float64`:
returns NaN on an empty slice, otherwise reads `vals[int(q*float64(length-1))]`.
`none` models the runtime panic when the computed index is out of range
(a negative or NaN `q` converts to a negative or platform-specific index). -/
def quantile (vals : List GoFloat) (q : GoFloat) : Option GoFloat :=
  if vals.length = 0 then some gNaN
  else
    match q with
    | none => none
    | some qv =>
      let index : ℤ := goInt (qv * ((vals.length : ℚ) - 1))
      if h : 0 ≤ index ∧ index.toNat < vals.length then
        some (vals.get ⟨index.toNat, h.2⟩)
      else none

/-- A value of the Go `Aggregator` interface.  `aggregate` receives the
contents of the caller's slice and returns the computed statistic together
with the contents the call leaves in that slice (a Go method may overwrite the
shared backing array in place — `QuantileAggregator.Aggregate` sorts it — but
cannot change the caller-visible length).  `none` models a panic inside the
call.  `length_eq` records the Go slice-semantics fact that the caller's
length is unchanged. -/
structure Aggregator where
  aggregate : List GoFloat → Option (GoFloat × List GoFloat)
  length_eq : ∀ l a buf, aggregate l = some (a, buf) → buf.length = l.length

/-- bootstrap.go `SumAggregator.Aggregate`: naive sequential sum starting
from `0.0`; does not touch the slice contents. -/
def SumAggregator : Aggregator where
  aggregate := fun values => some (values.foldl gAdd (some 0), values)
  length_eq := by
    intro l a buf h
    simp only [Option.some.injEq, Prod.mk.injEq] at h
    rw [← h.2]

/-- bootstrap.go `AverageAggregator.Aggregate`: `0.0` on an empty slice,
otherwise the naive sum divided by `float64(len(values))`. -/
def AverageAggregator : Aggregator where
  aggregate := fun values =>
    if values.length = 0 then some (some 0, values)
    else some (gDiv (values.foldl gAdd (some 0)) (some (values.length : ℚ)), values)
  length_eq := by
    intro l a buf h
    by_cases hl : l.length = 0 <;>
      simp only [hl, if_true, if_false, Option.some.injEq, Prod.mk.injEq] at h <;>
      rw [← h.2]

/-- bootstrap.go `QuantileAggregator.Aggregate`: sorts the caller's slice in
place with `sort.Float64s`, then returns `quantile(values, a.quantile)`. -/
def QuantileAggregator (q : GoFloat) : Aggregator where
  aggregate := fun values =>
    match quantile (sortFloat64s values) q with
    | none => none
    | some a => some (a, sortFloat64s values)
  length_eq := by
    intro l a buf h
    simp only at h
    cases hq : quantile (sortFloat64s l) q with
    | none => rw [hq] at h; exact Option.noConfusion h
    | some a0 =>
        rw [hq] at h
        simp only [Option.some.injEq, Prod.mk.injEq] at h
        rw [← h.2]
        exact (List.perm_insertionSort goLe l).length_eq

/-- bootstrap.go `BasicResampler` state.  The Go struct stores a
`rand.Source`; here `rpos` is the cursor into the abstract output stream of
that source (which was created by `rand.NewSource(0)`). -/
structure BasicResampler where
  aggregator : Aggregator
  iterations : ℕ
  sampleAggregates : List GoFloat
  rpos : ℕ

/-- bootstrap.go `NewBasicResampler`: fixed aggregator and iteration count, an
empty aggregate collection (`make([]float64, 0, 100)`), and a fresh
`rand.NewSource(0)` (cursor at position 0 of the seed-0 stream). -/
def NewBasicResampler (aggregator : Aggregator) (iterations : ℕ) : BasicResampler :=
  ⟨aggregator, iterations, [], 0⟩

/-- The inner loop of `BasicResampler.Resample`:
`for i := range values { scratch[i] = values[int(r.r.Int63())%length] }`.
One `Int63()` draw per position; each draw advances the cursor.  The guard
models the `%length` arithmetic fault when `length = 0` (the loop body never
runs in that case, since `range values` is empty). -/
def basicFill (int63 : ℕ → ℕ) (values : List GoFloat) :
    List ℕ → List GoFloat → ℕ → Option (List GoFloat × ℕ)
  | [], scratch, pos => some (scratch, pos)
  | p :: ps, scratch, pos =>
      if values.length = 0 then none
      else basicFill int63 values ps
        (scratch.set p (values.getD (int63 pos % values.length) gNaN)) (pos + 1)

/-- The outer loop of `BasicResampler.Resample`: `iterations` rounds, each
filling the scratch slice, aggregating it, and appending the aggregate.
Carries (scratch contents, accumulated aggregates, RNG cursor). -/
def basicLoop (int63 : ℕ → ℕ) (agg : Aggregator) (values : List GoFloat) :
    ℕ → List GoFloat → List GoFloat → ℕ → Option (List GoFloat × List GoFloat × ℕ)
  | 0, scratch, acc, pos => some (scratch, acc, pos)
  | n + 1, scratch, acc, pos =>
      match basicFill int63 values (List.range values.length) scratch pos with
      | none => none
      | some (scratch1, pos1) =>
          match agg.aggregate scratch1 with
          | none => none
          | some (a, scratch2) => basicLoop int63 agg values n scratch2 (acc ++ [a]) pos1

/-- bootstrap.go `BasicResampler.Resample`: allocates a zero-filled scratch
slice of the same length as `values`, runs `iterations` rounds, then sorts
`sampleAggregates` ascending.  Returns the new state together with the
contents of the caller's `values` slice after the call (which the body never
writes); `none` models a panic. -/
def BasicResampler.Resample (int63 : ℕ → ℕ) (r : BasicResampler) (values : List GoFloat) :
    Option (BasicResampler × List GoFloat) :=
  match basicLoop int63 r.aggregator values r.iterations
      (List.replicate values.length (some 0)) r.sampleAggregates r.rpos with
  | none => none
  | some (_, acc, pos) =>
      some ({ r with sampleAggregates := sortFloat64s acc, rpos := pos }, values)

/-- bootstrap.go `BasicResampler.Quantile`: `quantile(r.sampleAggregates, q)`. -/
def BasicResampler.Quantile (r : BasicResampler) (q : GoFloat) : Option GoFloat :=
  quantile r.sampleAggregates q

/-- bootstrap.go `BasicResampler.Reset`: `r.sampleAggregates = r.sampleAggregates[:0]`. -/
def BasicResampler.Reset (r : BasicResampler) : BasicResampler :=
  { r with sampleAggregates := [] }

/-- bootstrap.go `PresampledResampler` state: like `BasicResampler` but with a
precomputed count table `samples` in place of the RNG. -/
structure PresampledResampler where
  aggregator : Aggregator
  iterations : ℕ
  sampleAggregates : List GoFloat
  samples : List (List ℕ)

/-- One row of the presampled table:
`for _ = range sampledInts { sampledInts[int(r.Int63())%numValues]++ }`,
starting from a zero-filled slice of length `numValues`.  The loop runs
`numValues` times (once per element of `sampledInts`). -/
def sampleRowLoop (int63 : ℕ → ℕ) (numValues : ℕ) :
    ℕ → List ℕ → ℕ → List ℕ × ℕ
  | 0, row, pos => (row, pos)
  | n + 1, row, pos =>
      let idx := int63 pos % numValues
      sampleRowLoop int63 numValues n (row.set idx (row.getD idx 0 + 1)) (pos + 1)

/-- The row-building loop of `NewPresampledResampler`: `iterations` rows, one
shared `rand.NewSource(0)` advancing across rows. -/
def samplesLoop (int63 : ℕ → ℕ) (numValues : ℕ) :
    ℕ → List (List ℕ) → ℕ → List (List ℕ) × ℕ
  | 0, acc, pos => (acc, pos)
  | n + 1, acc, pos =>
      let rp := sampleRowLoop int63 numValues numValues (List.replicate numValues 0) pos
      samplesLoop int63 numValues n (acc ++ [rp.1]) rp.2

/-- bootstrap.go `NewPresampledResampler`: precomputes the `iterations` ×
`numValues` count table with a local `rand.NewSource(0)` (the source is not
kept in the struct), and starts with an empty aggregate collection. -/
def NewPresampledResampler (int63 : ℕ → ℕ) (aggregator : Aggregator)
    (iterations : ℕ) (numValues : ℕ) : PresampledResampler :=
  ⟨aggregator, iterations, [], (samplesLoop int63 numValues iterations [] 0).1⟩

/-- The inner loop of `PresampledResampler.Resample`:
`for j := range values { scratch[j] = values[j] * float64(r.samples[i][j]) }`.
`none` models the panic when `j` is out of range for row `i` (which happens
exactly when `len(values) > len(r.samples[i])`). -/
def presampFill (values : List GoFloat) (row : List ℕ) :
    List ℕ → List GoFloat → Option (List GoFloat)
  | [], scratch => some scratch
  | j :: js, scratch =>
      if h : j < row.length then
        presampFill values row js
          (scratch.set j (gMul (values.getD j gNaN) (some ((row.get ⟨j, h⟩ : ℕ) : ℚ))))
      else none

/-- The outer loop of `PresampledResampler.Resample`: `iterations` rounds over
rows `r.samples[i]`; `none` models the panic when `i` is out of range for the
table (possible only on states not built by the constructor). -/
def presampLoop (agg : Aggregator) (values : List GoFloat) (samples : List (List ℕ)) :
    ℕ → ℕ → List GoFloat → List GoFloat → Option (List GoFloat × List GoFloat)
  | 0, _, scratch, acc => some (scratch, acc)
  | n + 1, i, scratch, acc =>
      if h : i < samples.length then
        match presampFill values (samples.get ⟨i, h⟩) (List.range values.length) scratch with
        | none => none
        | some scratch1 =>
            match agg.aggregate scratch1 with
            | none => none
            | some (a, scratch2) => presampLoop agg values samples n (i + 1) scratch2 (acc ++ [a])
      else none

/-- bootstrap.go `PresampledResampler.Resample`: scales each position of
`values` by its precomputed draw count, aggregates, appends, and finally sorts
`sampleAggregates` ascending.  Returns the new state and the contents of the
caller's `values` slice after the call; `none` models a panic. -/
def PresampledResampler.Resample (r : PresampledResampler) (values : List GoFloat) :
    Option (PresampledResampler × List GoFloat) :=
  match presampLoop r.aggregator values r.samples r.iterations 0
      (List.replicate values.length (some 0)) r.sampleAggregates with
  | none => none
  | some (_, acc) =>
      some ({ r with sampleAggregates := sortFloat64s acc }, values)

/-- bootstrap.go `PresampledResampler.Quantile`. -/
def PresampledResampler.Quantile (r : PresampledResampler) (q : GoFloat) : Option GoFloat :=
  quantile r.sampleAggregates q

/-- bootstrap.go `PresampledResampler.Reset`. -/
def PresampledResampler.Reset (r : PresampledResampler) : PresampledResampler :=
  { r with sampleAggregates := [] }

/-- A sequence of `Resample` calls on a `BasicResampler` (discarding the
returned view of each input slice); `none` if any call panics. -/
def runBasic (int63 : ℕ → ℕ) : BasicResampler → List (List GoFloat) → Option BasicResampler
  | r, [] => some r
  | r, values :: rest =>
      match r.Resample int63 values with
      | none => none
      | some (st, _) => runBasic int63 st rest

/-- A sequence of `Resample` calls on a `PresampledResampler`. -/
def runPresampled : PresampledResampler → List (List GoFloat) → Option PresampledResampler
  | r, [] => some r
  | r, values :: rest =>
      match r.Resample values with
      | none => none
      | some (st, _) => runPresampled st rest

/-- Entry `j` of the presampled scratch slice: `values[j] * float64(counts[j])`. -/
def presampEntry (values : List GoFloat) (row : List ℕ) (j : ℕ) : GoFloat :=
  gMul (values.getD j gNaN) (some ((row.getD j 0 : ℕ) : ℚ))

/-- The scratch slice that iteration `i` of `PresampledResampler.Resample`
hands to the aggregator, as stated by the spec: position `j` holds
`values[j] * float64(counts[j])` — no reordering or index selection. -/
def scratchOfCounts (values : List GoFloat) (row : List ℕ) : List GoFloat :=
  (List.range values.length).map (presampEntry values row)

/-- The aggregates produced by presampled resampling of `values` against the
given table rows, one per row, `none` if any aggregation panics. -/
def aggsOfCounts (agg : Aggregator) (values : List GoFloat) :
    List (List ℕ) → Option (List GoFloat)
  | [] => some []
  | row :: rows =>
      match agg.aggregate (scratchOfCounts values row) with
      | none => none
      | some (a, _) => (aggsOfCounts agg values rows).map (fun as => a :: as)

/-- A NaN-free list of floats. -/
def realList (l : List GoFloat) : Prop := ∀ x ∈ l, x ≠ gNaN

lemma sum_set_incr (l : List ℕ) (i : ℕ) (h : i < l.length) :
    (l.set i (l.getD i 0 + 1)).sum = l.sum + 1 := by
  induction l generalizing i with
  | nil => simp at h
  | cons x t ih =>
      cases i with
      | zero => simp [List.set]; omega
      | succ n =>
          simp only [List.length_cons, Nat.succ_lt_succ_iff] at h
          simp only [List.set, List.getD_cons_succ, List.sum_cons, ih n h]
          omega

lemma set_append_cons {α : Type} (l1 : List α) (x : α) (l2 : List α) (a : α) :
    (l1 ++ x :: l2).set l1.length a = l1 ++ a :: l2 := by
  induction l1 with
  | nil => rfl
  | cons y t ih => simp [List.set, ih]

lemma goLe_some_iff (a b : ℚ) : goLe (some a) (some b) ↔ a ≤ b := by
  simp only [goLe, gLt, decide_eq_false_iff_not, not_lt]

lemma orderedInsert_map (a : ℚ) (l : List ℚ) :
    List.orderedInsert goLe (some a) (l.map some) =
      (List.orderedInsert (fun x y : ℚ => x ≤ y) a l).map some := by
  induction l with
  | nil => rfl
  | cons b t ih =>
      by_cases hab : a ≤ b
      · simp [List.orderedInsert, if_pos hab, if_pos ((goLe_some_iff a b).mpr hab)]
      · simp only [List.map_cons, List.orderedInsert, if_neg hab,
          if_neg (fun hc => hab ((goLe_some_iff a b).mp hc)), List.map_cons, ih]

lemma insertionSort_map (l : List ℚ) :
    List.insertionSort goLe (l.map some) =
      (List.insertionSort (fun x y : ℚ => x ≤ y) l).map some := by
  induction l with
  | nil => rfl
  | cons b t ih => simp only [List.map_cons, List.insertionSort, ih, orderedInsert_map]

lemma exists_map_some (l : List GoFloat) (h : realList l) :
    ∃ l0 : List ℚ, l = l0.map some := by
  induction l with
  | nil => exact ⟨[], rfl⟩
  | cons x t ih =>
      have hx : x ≠ gNaN := h x (List.mem_cons_self x t)
      obtain ⟨a, ha⟩ := Option.ne_none_iff_exists.mp hx
      obtain ⟨l0, hl0⟩ := ih (fun y hy => h y (List.mem_cons_of_mem x hy))
      exact ⟨a :: l0, by rw [hl0, ← ha]; rfl⟩

lemma sortFloat64s_perm (l : List GoFloat) : List.Perm (sortFloat64s l) l :=
  List.perm_insertionSort goLe l

lemma sortFloat64s_length (l : List GoFloat) : (sortFloat64s l).length = l.length :=
  (sortFloat64s_perm l).length_eq

lemma sorted_sortFloat64s (l : List GoFloat) (h : realList l) :
    List.Sorted goLe (sortFloat64s l) := by
  obtain ⟨l0, rfl⟩ := exists_map_some l h
  rw [sortFloat64s, insertionSort_map]
  refine List.pairwise_map.mpr ?_
  exact (List.sorted_insertionSort (fun x y : ℚ => x ≤ y) l0).imp
    (fun hab => (goLe_some_iff _ _).mpr hab)

lemma realList_of_perm {l l2 : List GoFloat} (hp : List.Perm l l2) (h : realList l) :
    realList l2 := fun x hx => h x (hp.mem_iff.mpr hx)

lemma quantile_nil (q : GoFloat) : quantile [] q = some gNaN := rfl

lemma quantile_in_range (vals : List GoFloat) (qv : ℚ) (hne : vals ≠ [])
    (h0 : 0 ≤ qv) (h1 : qv ≤ 1) :
    quantile vals (some qv) =
      some (vals.getD (⌊qv * ((vals.length : ℚ) - 1)⌋).toNat gNaN) := by
  have hlen : vals.length ≠ 0 := fun hc => hne (List.length_eq_zero.mp hc)
  have hlen1 : 1 ≤ vals.length := Nat.one_le_iff_ne_zero.mpr hlen
  have hsub : (0 : ℚ) ≤ (vals.length : ℚ) - 1 := by
    rw [sub_nonneg]
    exact_mod_cast hlen1
  have hx : (0 : ℚ) ≤ qv * ((vals.length : ℚ) - 1) := mul_nonneg h0 hsub
  have hgoInt : goInt (qv * ((vals.length : ℚ) - 1)) = ⌊qv * ((vals.length : ℚ) - 1)⌋ := by
    rw [goInt, if_pos hx]
  have hfl0 : 0 ≤ ⌊qv * ((vals.length : ℚ) - 1)⌋ := Int.floor_nonneg.mpr hx
  have hub : qv * ((vals.length : ℚ) - 1) ≤ (vals.length : ℚ) - 1 := by
    calc qv * ((vals.length : ℚ) - 1) ≤ 1 * ((vals.length : ℚ) - 1) :=
          mul_le_mul_of_nonneg_right h1 hsub
      _ = (vals.length : ℚ) - 1 := one_mul _
  have hflub : ⌊qv * ((vals.length : ℚ) - 1)⌋ ≤ (vals.length : ℤ) - 1 := by
    have h2 : qv * ((vals.length : ℚ) - 1) ≤ ((((vals.length : ℤ) - 1) : ℤ) : ℚ) := by
      push_cast
      exact hub
    calc ⌊qv * ((vals.length : ℚ) - 1)⌋ ≤ ⌊((((vals.length : ℤ) - 1) : ℤ) : ℚ)⌋ :=
          Int.floor_le_floor h2
      _ = (vals.length : ℤ) - 1 := Int.floor_intCast _
  have hidx : (⌊qv * ((vals.length : ℚ) - 1)⌋).toNat < vals.length := by omega
  simp only [quantile, if_neg hlen, hgoInt]
  rw [dif_pos ⟨hfl0, hidx⟩]
  rw [List.get_eq_getElem, List.getD_eq_getElem vals gNaN hidx]

lemma sampleRowLoop_spec (int63 : ℕ → ℕ) (numValues : ℕ) (hpos : 0 < numValues) :
    ∀ (n : ℕ) (row : List ℕ) (pos : ℕ), row.length = numValues →
      (sampleRowLoop int63 numValues n row pos).1.length = numValues ∧
      (sampleRowLoop int63 numValues n row pos).1.sum = row.sum + n := by
  intro n
  induction n with
  | zero => intro row pos h; exact ⟨h, rfl⟩
  | succ m ih =>
      intro row pos h
      have hidx : int63 pos % numValues < row.length := by
        rw [h]; exact Nat.mod_lt _ hpos
      have hset : (row.set (int63 pos % numValues)
          (row.getD (int63 pos % numValues) 0 + 1)).length = numValues := by
        rw [List.length_set, h]
      obtain ⟨hl, hs⟩ := ih (row.set (int63 pos % numValues)
        (row.getD (int63 pos % numValues) 0 + 1)) (pos + 1) hset
      have hstep : sampleRowLoop int63 numValues (m + 1) row pos =
          sampleRowLoop int63 numValues m
            (row.set (int63 pos % numValues) (row.getD (int63 pos % numValues) 0 + 1))
            (pos + 1) := rfl
      refine ⟨?_, ?_⟩
      · rw [hstep]
        exact hl
      · rw [hstep, hs, sum_set_incr row _ hidx]
        omega

lemma samplesLoop_spec (int63 : ℕ → ℕ) (numValues : ℕ) (hpos : 0 < numValues) :
    ∀ (n : ℕ) (acc : List (List ℕ)) (pos : ℕ),
      (samplesLoop int63 numValues n acc pos).1.length = acc.length + n ∧
      ∀ row ∈ (samplesLoop int63 numValues n acc pos).1,
        row ∈ acc ∨ (row.length = numValues ∧ row.sum = numValues) := by
  intro n
  induction n with
  | zero => intro acc pos; exact ⟨rfl, fun row hr => Or.inl hr⟩
  | succ m ih =>
      intro acc pos
      have hrep : (List.replicate numValues (0 : ℕ)).length = numValues :=
        List.length_replicate numValues 0
      obtain ⟨hrl, hrs⟩ := sampleRowLoop_spec int63 numValues hpos numValues
        (List.replicate numValues 0) pos hrep
      have hrs0 : (sampleRowLoop int63 numValues numValues
          (List.replicate numValues 0) pos).1.sum = numValues := by
        rw [hrs]
        simp
      have hstep : samplesLoop int63 numValues (m + 1) acc pos =
          samplesLoop int63 numValues m
            (acc ++ [(sampleRowLoop int63 numValues numValues
              (List.replicate numValues 0) pos).1])
            (sampleRowLoop int63 numValues numValues
              (List.replicate numValues 0) pos).2 := rfl
      obtain ⟨ihl, ihm⟩ := ih
        (acc ++ [(sampleRowLoop int63 numValues numValues
          (List.replicate numValues 0) pos).1])
        (sampleRowLoop int63 numValues numValues (List.replicate numValues 0) pos).2
      refine ⟨?_, ?_⟩
      · rw [hstep, ihl, List.length_append]
        simp
        omega
      · intro row hr
        rw [hstep] at hr
        rcases ihm row hr with hin | hprops
        · rcases List.mem_append.mp hin with ha | hb
          · exact Or.inl ha
          · have hbe : row = (sampleRowLoop int63 numValues numValues
                (List.replicate numValues 0) pos).1 := List.mem_singleton.mp hb
            exact Or.inr (hbe ▸ ⟨hrl, hrs0⟩)
        · exact Or.inr hprops

lemma quantile_oob (vals : List GoFloat) (qv : ℚ) (hne : vals ≠ [])
    (hob : ¬ (0 ≤ goInt (qv * ((vals.length : ℚ) - 1)) ∧
      (goInt (qv * ((vals.length : ℚ) - 1))).toNat < vals.length)) :
    quantile vals (some qv) = none := by
  have hlen : vals.length ≠ 0 := fun hc => hne (List.length_eq_zero.mp hc)
  rw [quantile, if_neg hlen]
  exact dif_neg hob

lemma newPresampled_samples (int63 : ℕ → ℕ) (agg : Aggregator) (iterations numValues : ℕ)
    (hpos : 0 < numValues) :
    (NewPresampledResampler int63 agg iterations numValues).samples.length = iterations ∧
    ∀ row ∈ (NewPresampledResampler int63 agg iterations numValues).samples,
      row.length = numValues ∧ row.sum = numValues := by
  obtain ⟨hl, hm⟩ := samplesLoop_spec int63 numValues hpos iterations [] 0
  refine ⟨by simpa using hl, ?_⟩
  intro row hr
  rcases hm row hr with hin | hp
  · exact absurd hin (List.not_mem_nil row)
  · exact hp

lemma basicFill_some (int63 : ℕ → ℕ) (values : List GoFloat) (hne : values.length ≠ 0) :
    ∀ (ps : List ℕ) (scratch : List GoFloat) (pos : ℕ),
      ∃ sc, basicFill int63 values ps scratch pos = some (sc, pos + ps.length) ∧
        sc.length = scratch.length := by
  intro ps
  induction ps with
  | nil => intro scratch pos; exact ⟨scratch, rfl, rfl⟩
  | cons p pt ih =>
      intro scratch pos
      obtain ⟨sc, heq, hlen⟩ :=
        ih (scratch.set p (values.getD (int63 pos % values.length) gNaN)) (pos + 1)
      refine ⟨sc, ?_, by rw [hlen, List.length_set]⟩
      have hstep : basicFill int63 values (p :: pt) scratch pos =
          basicFill int63 values pt
            (scratch.set p (values.getD (int63 pos % values.length) gNaN)) (pos + 1) := by
        simp only [basicFill]
        rw [if_neg hne]
      have harith : pos + (p :: pt).length = pos + 1 + pt.length := by
        rw [List.length_cons]
        omega
      rw [harith, hstep]
      exact heq

lemma basicLoop_acc (int63 : ℕ → ℕ) (agg : Aggregator) (values : List GoFloat) :
    ∀ (n : ℕ) (scratch acc : List GoFloat) (pos : ℕ) (sc acc1 : List GoFloat) (pos1 : ℕ),
      basicLoop int63 agg values n scratch acc pos = some (sc, acc1, pos1) →
      ∃ news, acc1 = acc ++ news ∧ news.length = n := by
  intro n
  induction n with
  | zero =>
      intro scratch acc pos sc acc1 pos1 h
      simp only [basicLoop, Option.some.injEq, Prod.mk.injEq] at h
      exact ⟨[], by rw [← h.2.1]; simp, rfl⟩
  | succ m ih =>
      intro scratch acc pos sc acc1 pos1 h
      simp only [basicLoop] at h
      split at h
      · exact absurd h (by simp)
      · split at h
        · exact absurd h (by simp)
        · rename_i s1 p1 hf ab a s2 ha
          obtain ⟨news, hn1, hn2⟩ := ih _ _ _ _ _ _ h
          refine ⟨a :: news, ?_, by simp [hn2]⟩
          rw [hn1, List.append_assoc]
          rfl

lemma basicLoop_nil (int63 : ℕ → ℕ) (agg : Aggregator) (a : GoFloat) (buf : List GoFloat)
    (ha : agg.aggregate [] = some (a, buf)) :
    ∀ (n : ℕ) (acc : List GoFloat) (pos : ℕ),
      basicLoop int63 agg [] n [] acc pos = some ([], acc ++ List.replicate n a, pos) := by
  have hbuf : buf = [] := List.length_eq_zero.mp (agg.length_eq [] a buf ha)
  intro n
  induction n with
  | zero => intro acc pos; simp [basicLoop]
  | succ m ih =>
      intro acc pos
      have hstep0 : basicLoop int63 agg [] (m + 1) [] acc pos =
          (match agg.aggregate [] with
            | none => none
            | some (a0, s2) => basicLoop int63 agg [] m s2 (acc ++ [a0]) pos) := rfl
      have hstep : basicLoop int63 agg [] (m + 1) [] acc pos =
          basicLoop int63 agg [] m buf (acc ++ [a]) pos := by
        rw [hstep0, ha]
      rw [hstep, hbuf, ih (acc ++ [a]) pos, List.append_assoc, List.replicate_succ,
        List.singleton_append]

lemma scratchOfCounts_length (values : List GoFloat) (row : List ℕ) :
    (scratchOfCounts values row).length = values.length := by
  simp [scratchOfCounts]

lemma set_append_at {α : Type} (l1 : List α) (x : α) (l2 : List α) (a : α) (i : ℕ)
    (h : i = l1.length) : (l1 ++ x :: l2).set i a = l1 ++ a :: l2 := by
  subst h
  exact set_append_cons l1 x l2 a

lemma foldl_set_range (f : ℕ → GoFloat) :
    ∀ (k : ℕ) (scratch : List GoFloat), k ≤ scratch.length →
      (List.range k).foldl (fun sc j => sc.set j (f j)) scratch =
        ((List.range k).map f) ++ scratch.drop k := by
  intro k
  induction k with
  | zero => intro scratch h; simp
  | succ m ih =>
      intro scratch h
      have hm : m < scratch.length := by omega
      rw [List.range_succ, List.foldl_append, ih scratch (by omega)]
      simp only [List.foldl_cons, List.foldl_nil]
      rw [List.drop_eq_getElem_cons hm]
      rw [set_append_at ((List.range m).map f) _ _ (f m) m (by simp)]
      rw [List.map_append, List.append_assoc]
      rfl

lemma presampFill_eq_foldl (values : List GoFloat) (row : List ℕ) :
    ∀ (ps : List ℕ) (scratch : List GoFloat), (∀ j ∈ ps, j < row.length) →
      presampFill values row ps scratch =
        some (ps.foldl (fun sc j => sc.set j (presampEntry values row j)) scratch) := by
  intro ps
  induction ps with
  | nil => intro scratch h; rfl
  | cons p pt ih =>
      intro scratch h
      have hp : p < row.length := h p (List.mem_cons_self p pt)
      have hstep : presampFill values row (p :: pt) scratch =
          presampFill values row pt
            (scratch.set p (gMul (values.getD p gNaN) (some ((row.get ⟨p, hp⟩ : ℕ) : ℚ)))) := by
        simp only [presampFill]
        rw [dif_pos hp]
      have hget : (row.get ⟨p, hp⟩ : ℕ) = row.getD p 0 := by
        rw [List.get_eq_getElem, List.getD_eq_getElem row 0 hp]
      rw [hstep, hget, ih _ (fun j hj => h j (List.mem_cons_of_mem p hj)), List.foldl_cons]
      rfl

lemma presampFill_range (values : List GoFloat) (row : List ℕ)
    (hrow : values.length ≤ row.length) (scratch : List GoFloat)
    (hs : scratch.length = values.length) :
    presampFill values row (List.range values.length) scratch =
      some (scratchOfCounts values row) := by
  rw [presampFill_eq_foldl values row (List.range values.length) scratch
    (fun j hj => lt_of_lt_of_le (List.mem_range.mp hj) hrow)]
  rw [foldl_set_range (presampEntry values row) values.length scratch (by omega)]
  rw [← hs, List.drop_length, scratchOfCounts, hs, List.append_nil]

lemma presampFill_none (values : List GoFloat) (row : List ℕ) :
    ∀ (ps : List ℕ) (scratch : List GoFloat), (∃ j ∈ ps, row.length ≤ j) →
      presampFill values row ps scratch = none := by
  intro ps
  induction ps with
  | nil => intro scratch h; obtain ⟨j, hj, _⟩ := h; exact absurd hj (List.not_mem_nil j)
  | cons p pt ih =>
      intro scratch h
      by_cases hp : p < row.length
      · have hstep : presampFill values row (p :: pt) scratch =
            presampFill values row pt
              (scratch.set p (gMul (values.getD p gNaN)
                (some ((row.get ⟨p, hp⟩ : ℕ) : ℚ)))) := by
          simp only [presampFill]
          rw [dif_pos hp]
        rw [hstep]
        obtain ⟨j, hj, hjle⟩ := h
        rcases List.mem_cons.mp hj with rfl | hjt
        · omega
        · exact ih _ ⟨j, hjt, hjle⟩
      · simp only [presampFill]
        rw [dif_neg hp]

lemma presampLoop_acc (agg : Aggregator) (values : List GoFloat) (samples : List (List ℕ)) :
    ∀ (n i : ℕ) (scratch acc : List GoFloat) (sc acc1 : List GoFloat),
      presampLoop agg values samples n i scratch acc = some (sc, acc1) →
      ∃ news, acc1 = acc ++ news ∧ news.length = n := by
  intro n
  induction n with
  | zero =>
      intro i scratch acc sc acc1 h
      simp only [presampLoop, Option.some.injEq, Prod.mk.injEq] at h
      exact ⟨[], by rw [← h.2]; simp, rfl⟩
  | succ m ih =>
      intro i scratch acc sc acc1 h
      simp only [presampLoop] at h
      split at h
      · split at h
        · exact absurd h (by simp)
        · split at h
          · exact absurd h (by simp)
          · rename_i hi s1 hf ab a s2 ha
            obtain ⟨news, hn1, hn2⟩ := ih _ _ _ _ _ h
            refine ⟨a :: news, ?_, by simp [hn2]⟩
            rw [hn1, List.append_assoc]
            rfl
      · exact absurd h (by simp)

lemma aggsOfCounts_length (agg : Aggregator) (values : List GoFloat) :
    ∀ (rows : List (List ℕ)) (news : List GoFloat),
      aggsOfCounts agg values rows = some news → news.length = rows.length := by
  intro rows
  induction rows with
  | nil =>
      intro news h
      simp only [aggsOfCounts, Option.some.injEq] at h
      rw [← h]
      rfl
  | cons row rest ih =>
      intro news h
      simp only [aggsOfCounts] at h
      split at h
      · exact absurd h (by simp)
      · rename_i ab a buf ha
        cases hr : aggsOfCounts agg values rest with
        | none => rw [hr] at h; exact absurd h (by simp)
        | some ns =>
            rw [hr] at h
            simp only [Option.map_some', Option.some.injEq] at h
            rw [← h]
            simp [ih ns hr]

lemma aggsOfCounts_total (agg : Aggregator) (values : List GoFloat)
    (haggAll : ∀ l, (agg.aggregate l).isSome = true) :
    ∀ rows : List (List ℕ), (aggsOfCounts agg values rows).isSome = true := by
  intro rows
  induction rows with
  | nil => rfl
  | cons row rest ih =>
      simp only [aggsOfCounts]
      cases ha : agg.aggregate (scratchOfCounts values row) with
      | none =>
          have := haggAll (scratchOfCounts values row)
          rw [ha] at this
          exact absurd this (by simp)
      | some ab =>
          obtain ⟨a, buf⟩ := ab
          simpa using ih

lemma presampLoop_aggs (agg : Aggregator) (values : List GoFloat)
    (samples : List (List ℕ))
    (hrows : ∀ row ∈ samples, values.length ≤ row.length) :
    ∀ (n i : ℕ) (scratch acc : List GoFloat), scratch.length = values.length →
      i + n ≤ samples.length →
      (presampLoop agg values samples n i scratch acc).map (fun p => p.2) =
        (aggsOfCounts agg values ((samples.drop i).take n)).map (fun news => acc ++ news) := by
  intro n
  induction n with
  | zero =>
      intro i scratch acc hs hi
      simp [presampLoop, aggsOfCounts]
  | succ m ih =>
      intro i scratch acc hs hi
      have hilt : i < samples.length := by omega
      have hdrop : samples.drop i = samples.get ⟨i, hilt⟩ :: samples.drop (i + 1) := by
        rw [List.get_eq_getElem]
        exact List.drop_eq_getElem_cons hilt
      have hrowmem : samples.get ⟨i, hilt⟩ ∈ samples := List.get_mem samples i hilt
      have hfill := presampFill_range values (samples.get ⟨i, hilt⟩)
        (hrows _ hrowmem) scratch hs
      have hstep : presampLoop agg values samples (m + 1) i scratch acc =
          (match agg.aggregate (scratchOfCounts values (samples.get ⟨i, hilt⟩)) with
            | none => none
            | some (a, scratch2) =>
                presampLoop agg values samples m (i + 1) scratch2 (acc ++ [a])) := by
        simp only [presampLoop]
        rw [dif_pos hilt, hfill]
      rw [hstep, hdrop, List.take_succ_cons]
      simp only [aggsOfCounts]
      cases ha : agg.aggregate (scratchOfCounts values (samples.get ⟨i, hilt⟩)) with
      | none => simp
      | some ab =>
          obtain ⟨a, s2⟩ := ab
          have hs2 : s2.length = values.length := by
            rw [agg.length_eq _ _ _ ha, scratchOfCounts_length]
          simp only
          rw [ih (i + 1) s2 (acc ++ [a]) hs2 (by omega)]
          cases hr : aggsOfCounts agg values ((samples.drop (i + 1)).take m) with
          | none => rfl
          | some ns => simp [List.append_assoc]

lemma presampLoop_overflow (agg : Aggregator) (values : List GoFloat)
    (samples : List (List ℕ)) (m : ℕ) (hlen0 : 0 < samples.length)
    (hshort : (samples.get ⟨0, hlen0⟩).length < values.length)
    (scratch acc : List GoFloat) :
    presampLoop agg values samples (m + 1) 0 scratch acc = none := by
  have hfill : presampFill values (samples.get ⟨0, hlen0⟩)
      (List.range values.length) scratch = none :=
    presampFill_none values _ _ scratch
      ⟨(samples.get ⟨0, hlen0⟩).length, List.mem_range.mpr hshort, le_refl _⟩
  simp only [presampLoop]
  rw [dif_pos hlen0, hfill]

lemma basicResample_some (int63 : ℕ → ℕ) (r : BasicResampler) (values : List GoFloat)
    (st : BasicResampler) (vout : List GoFloat)
    (h : BasicResampler.Resample int63 r values = some (st, vout)) :
    vout = values ∧ st.aggregator = r.aggregator ∧ st.iterations = r.iterations ∧
    ∃ news, news.length = r.iterations ∧
      st.sampleAggregates = sortFloat64s (r.sampleAggregates ++ news) := by
  simp only [BasicResampler.Resample] at h
  cases hl : basicLoop int63 r.aggregator values r.iterations
      (List.replicate values.length (some 0)) r.sampleAggregates r.rpos with
  | none => rw [hl] at h; exact absurd h (by simp)
  | some p =>
      obtain ⟨sc, acc, pos⟩ := p
      rw [hl] at h
      simp only [Option.some.injEq, Prod.mk.injEq] at h
      obtain ⟨hst, hv⟩ := h
      obtain ⟨news, hn1, hn2⟩ := basicLoop_acc int63 r.aggregator values
        r.iterations _ _ _ _ _ _ hl
      refine ⟨hv.symm, ?_, ?_, news, hn2, ?_⟩
      · rw [← hst]
      · rw [← hst]
      · rw [← hst, ← hn1]

lemma presampResample_some (r : PresampledResampler) (values : List GoFloat)
    (st : PresampledResampler) (vout : List GoFloat)
    (h : PresampledResampler.Resample r values = some (st, vout)) :
    vout = values ∧ st.aggregator = r.aggregator ∧ st.iterations = r.iterations ∧
    st.samples = r.samples ∧
    ∃ news, news.length = r.iterations ∧
      st.sampleAggregates = sortFloat64s (r.sampleAggregates ++ news) := by
  simp only [PresampledResampler.Resample] at h
  cases hl : presampLoop r.aggregator values r.samples r.iterations 0
      (List.replicate values.length (some 0)) r.sampleAggregates with
  | none => rw [hl] at h; exact absurd h (by simp)
  | some p =>
      obtain ⟨sc, acc⟩ := p
      rw [hl] at h
      simp only [Option.some.injEq, Prod.mk.injEq] at h
      obtain ⟨hst, hv⟩ := h
      obtain ⟨news, hn1, hn2⟩ := presampLoop_acc r.aggregator values r.samples
        r.iterations _ _ _ _ _ hl
      refine ⟨hv.symm, ?_, ?_, ?_, news, hn2, ?_⟩
      · rw [← hst]
      · rw [← hst]
      · rw [← hst]
      · rw [← hst, ← hn1]

lemma basicResample_snd (int63 : ℕ → ℕ) (r : BasicResampler) (values : List GoFloat) :
    (BasicResampler.Resample int63 r values).map (fun p => p.2) =
      (BasicResampler.Resample int63 r values).map (fun _ => values) := by
  simp only [BasicResampler.Resample]
  cases basicLoop int63 r.aggregator values r.iterations
      (List.replicate values.length (some 0)) r.sampleAggregates r.rpos with
  | none => rfl
  | some p => obtain ⟨sc, acc, pos⟩ := p; rfl

lemma presampResample_snd (r : PresampledResampler) (values : List GoFloat) :
    (PresampledResampler.Resample r values).map (fun p => p.2) =
      (PresampledResampler.Resample r values).map (fun _ => values) := by
  simp only [PresampledResampler.Resample]
  cases presampLoop r.aggregator values r.samples r.iterations 0
      (List.replicate values.length (some 0)) r.sampleAggregates with
  | none => rfl
  | some p => obtain ⟨sc, acc⟩ := p; rfl

lemma presampResample_aggs (r : PresampledResampler) (values : List GoFloat)
    (hrows : ∀ row ∈ r.samples, values.length ≤ row.length)
    (hiter : r.iterations ≤ r.samples.length) :
    (PresampledResampler.Resample r values).map (fun p => p.1.sampleAggregates) =
      (aggsOfCounts r.aggregator values (r.samples.take r.iterations)).map
        (fun news => sortFloat64s (r.sampleAggregates ++ news)) := by
  have hkey := presampLoop_aggs r.aggregator values r.samples hrows r.iterations 0
    (List.replicate values.length (some 0)) r.sampleAggregates
    (List.length_replicate _ _) (by omega)
  rw [List.drop_zero] at hkey
  simp only [PresampledResampler.Resample]
  cases hl : presampLoop r.aggregator values r.samples r.iterations 0
      (List.replicate values.length (some 0)) r.sampleAggregates with
  | none =>
      rw [hl] at hkey
      cases hr : aggsOfCounts r.aggregator values (r.samples.take r.iterations) with
      | none => rfl
      | some ns => rw [hr] at hkey; exact absurd hkey (by simp)
  | some p =>
      obtain ⟨sc, acc⟩ := p
      rw [hl] at hkey
      cases hr : aggsOfCounts r.aggregator values (r.samples.take r.iterations) with
      | none => rw [hr] at hkey; exact absurd hkey (by simp)
      | some ns =>
          rw [hr] at hkey
          simp only [Option.map_some', Option.some.injEq] at hkey
          simp only [Option.map_some', Option.some.injEq]
          rw [hkey]

lemma presampResample_overflow (r : PresampledResampler) (values : List GoFloat)
    (hlen0 : 0 < r.samples.length) (hit : 0 < r.iterations)
    (hshort : (r.samples.get ⟨0, hlen0⟩).length < values.length) :
    PresampledResampler.Resample r values = none := by
  obtain ⟨m, hm⟩ : ∃ m, r.iterations = m + 1 := ⟨r.iterations - 1, by omega⟩
  simp only [PresampledResampler.Resample, hm]
  rw [presampLoop_overflow r.aggregator values r.samples m hlen0 hshort]

lemma basicResample_nil (int63 : ℕ → ℕ) (r : BasicResampler) (a : GoFloat)
    (buf : List GoFloat) (ha : r.aggregator.aggregate [] = some (a, buf)) :
    BasicResampler.Resample int63 r [] =
      some ({ r with
        sampleAggregates := sortFloat64s (r.sampleAggregates ++ List.replicate r.iterations a) },
        []) := by
  simp only [BasicResampler.Resample, List.length_nil, List.replicate_zero]
  rw [basicLoop_nil int63 r.aggregator a buf ha r.iterations r.sampleAggregates r.rpos]

lemma quantileAggregator_eq (qa : GoFloat) (vals : List GoFloat) :
    (QuantileAggregator qa).aggregate vals =
      (quantile (sortFloat64s vals) qa).map (fun a => (a, sortFloat64s vals)) := by
  simp only [QuantileAggregator]
  cases quantile (sortFloat64s vals) qa <;> rfl

lemma quantile_inb (vals : List GoFloat) (qv : ℚ) (hne : vals ≠ [])
    (hin : 0 ≤ goInt (qv * ((vals.length : ℚ) - 1)) ∧
      (goInt (qv * ((vals.length : ℚ) - 1))).toNat < vals.length) :
    quantile vals (some qv) =
      some (vals.getD (goInt (qv * ((vals.length : ℚ) - 1))).toNat gNaN) := by
  have hlen : vals.length ≠ 0 := fun hc => hne (List.length_eq_zero.mp hc)
  simp only [quantile, if_neg hlen]
  rw [dif_pos hin, List.get_eq_getElem, List.getD_eq_getElem vals gNaN hin.2]

/-- C3 counterexample: `quantile([10,20], 2)` — a `q` outside `[0,1]` on a
non-empty collection — is neither validated, nor rejected with an error value,
nor clamped: the computed index `int(2×1) = 2` is out of bounds and the read
faults (`none` models the runtime panic).  Under the claim the call would have
to fail with a descriptive error or clamp (returning an element); instead it
performs the out-of-bounds read. -/
theorem claim_C3_counterexample : quantile [some 10, some 20] (some 2) = none := by
  apply quantile_oob _ _ (by decide)
  simp only [List.length_cons, List.length_nil]
  norm_num [goInt]

/-- C3 (amended): no quantile lookup validates or clamps `q`.  For a
non-empty collection the helper always computes `index = int(q × (n−1))` and
reads it: when the index lands inside `[0, n)` the element is returned even
for `q` outside `[0,1]`, and otherwise the read faults (out-of-bounds panic,
modelled by `none`) rather than failing with a descriptive error. -/
theorem claim_C3 : ∀ (vals : List GoFloat) (qv : ℚ), vals ≠ [] →
    ((0 ≤ goInt (qv * ((vals.length : ℚ) - 1)) ∧
        (goInt (qv * ((vals.length : ℚ) - 1))).toNat < vals.length) →
      quantile vals (some qv) =
        some (vals.getD (goInt (qv * ((vals.length : ℚ) - 1))).toNat gNaN)) ∧
    (¬ (0 ≤ goInt (qv * ((vals.length : ℚ) - 1)) ∧
        (goInt (qv * ((vals.length : ℚ) - 1))).toNat < vals.length) →
      quantile vals (some qv) = none) :=
  fun vals qv hne =>
    ⟨fun hin => quantile_inb vals qv hne hin, fun hob => quantile_oob vals qv hne hob⟩

/-- C3 witness: at `vals = [1,2,3]`, `q = −1` the index is `−2`, out of
bounds, and the lookup faults. -/
theorem claim_C3_witness : quantile [some 1, some 2, some 3] (some (-1)) = none := by
  refine (claim_C3 [some 1, some 2, some 3] (-1) (by decide)).2 ?_
  simp only [List.length_cons, List.length_nil]
  norm_num [goInt]

/-- C4: the shared `quantile` helper returns NaN on an empty collection, and
for `q ∈ [0,1]` on a non-empty collection returns `vals[⌊q × (n−1)⌋]` without
faulting (for `q ≥ 0` Go's truncating `int` conversion is the floor); and the
`Quantile` methods of both resamplers and the `QuantileAggregator` all go
through this one helper on exactly this formula. -/
theorem claim_C4 :
    (∀ q : GoFloat, quantile [] q = some gNaN) ∧
    (∀ (vals : List GoFloat) (qv : ℚ), vals ≠ [] → 0 ≤ qv → qv ≤ 1 →
      quantile vals (some qv) =
        some (vals.getD (⌊qv * ((vals.length : ℚ) - 1)⌋).toNat gNaN)) ∧
    (∀ (r : BasicResampler) (q : GoFloat), r.Quantile q = quantile r.sampleAggregates q) ∧
    (∀ (s : PresampledResampler) (q : GoFloat), s.Quantile q = quantile s.sampleAggregates q) ∧
    (∀ (qa : GoFloat) (vals : List GoFloat),
      (QuantileAggregator qa).aggregate vals =
        (quantile (sortFloat64s vals) qa).map (fun a => (a, sortFloat64s vals))) :=
  ⟨fun q => quantile_nil q,
   fun vals qv h1 h2 h3 => quantile_in_range vals qv h1 h2 h3,
   fun _ _ => rfl,
   fun _ _ => rfl,
   fun qa vals => quantileAggregator_eq qa vals⟩

/-- C4 witness: `quantile([10,20,30], 1/2) = 20` (index `⌊0.5 × 2⌋ = 1`), the
spec's own example. -/
theorem claim_C4_witness : quantile [some 10, some 20, some 30] (some (1/2)) = some (some 20) := by
  rw [claim_C4.2.1 [some 10, some 20, some 30] (1/2) (by decide) (by norm_num) (by norm_num)]
  simp only [List.length_cons, List.length_nil]
  norm_num

/-- C5: the table built by `NewPresampledResampler` has exactly `iterations`
rows, each of length `numValues` with entries summing to `numValues` (counts
are naturally non-negative, being `ℕ`); and neither `Resample` nor `Reset`
ever changes the `samples` field after construction. -/
theorem claim_C5 : ∀ (int63 : ℕ → ℕ) (agg : Aggregator) (iterations numValues : ℕ),
    1 ≤ numValues →
    (NewPresampledResampler int63 agg iterations numValues).samples.length = iterations ∧
    (∀ row ∈ (NewPresampledResampler int63 agg iterations numValues).samples,
      row.length = numValues ∧ row.sum = numValues) ∧
    (∀ (s : PresampledResampler) (values : List GoFloat),
      (PresampledResampler.Resample s values).map (fun p => p.1.samples) =
        (PresampledResampler.Resample s values).map (fun _ => s.samples)) ∧
    (∀ s : PresampledResampler, (PresampledResampler.Reset s).samples = s.samples) := by
  intro int63 agg iterations numValues hpos
  obtain ⟨h1, h2⟩ := newPresampled_samples int63 agg iterations numValues hpos
  refine ⟨h1, h2, ?_, fun s => rfl⟩
  intro s values
  simp only [PresampledResampler.Resample]
  cases presampLoop s.aggregator values s.samples s.iterations 0
      (List.replicate values.length (some 0)) s.sampleAggregates with
  | none => rfl
  | some p => obtain ⟨sc, acc⟩ := p; rfl

/-- C5 witness: a 2 × 3 table has 2 rows, and each row of the concrete table
for the stream `k ↦ k` is `[1,1,1]`, summing to `numValues = 3`. -/
theorem claim_C5_witness :
    (NewPresampledResampler (fun k => k) SumAggregator 2 3).samples.length = 2 :=
  (claim_C5 (fun k => k) SumAggregator 2 3 (by decide)).1

/-- C7: `Reset` empties only `sampleAggregates` — afterwards `Quantile`
returns NaN for every `q` — and leaves the aggregator, the iteration count,
the RNG cursor (Basic) and the precomputed table (Presampled) untouched; it is
idempotent. -/
theorem claim_C7 : ∀ (r : BasicResampler) (s : PresampledResampler) (q : GoFloat),
    r.Reset.Quantile q = some gNaN ∧
    r.Reset.sampleAggregates = [] ∧
    r.Reset.aggregator = r.aggregator ∧
    r.Reset.iterations = r.iterations ∧
    r.Reset.rpos = r.rpos ∧
    r.Reset.Reset = r.Reset ∧
    s.Reset.Quantile q = some gNaN ∧
    s.Reset.sampleAggregates = [] ∧
    s.Reset.aggregator = s.aggregator ∧
    s.Reset.iterations = s.iterations ∧
    s.Reset.samples = s.samples ∧
    s.Reset.Reset = s.Reset :=
  fun _ _ _ => ⟨rfl, rfl, rfl, rfl, rfl, rfl, rfl, rfl, rfl, rfl, rfl, rfl⟩

/-- C9: resampling is deterministic.  Construction takes no entropy beyond the
fixed seed-0 stream (`rand.NewSource(0)`, modelled by the shared `int63`), so
two instances of the same variant built with the same aggregator, iteration
count (and `numValues`), fed the same sequence of inputs, have identical
`sampleAggregates` and identical `Quantile` answers for every `q`. -/
theorem claim_C9 : ∀ (int63 : ℕ → ℕ) (agg : Aggregator) (iterations numValues : ℕ)
    (inputs : List (List GoFloat)) (r1 r2 : BasicResampler) (p1 p2 : PresampledResampler),
    r1 = NewBasicResampler agg iterations →
    r2 = NewBasicResampler agg iterations →
    p1 = NewPresampledResampler int63 agg iterations numValues →
    p2 = NewPresampledResampler int63 agg iterations numValues →
    runBasic int63 r1 inputs = runBasic int63 r2 inputs ∧
    (runBasic int63 r1 inputs).map (fun st => st.sampleAggregates) =
      (runBasic int63 r2 inputs).map (fun st => st.sampleAggregates) ∧
    (∀ q : GoFloat, (runBasic int63 r1 inputs).map (fun st => st.Quantile q) =
      (runBasic int63 r2 inputs).map (fun st => st.Quantile q)) ∧
    runPresampled p1 inputs = runPresampled p2 inputs ∧
    (runPresampled p1 inputs).map (fun st => st.sampleAggregates) =
      (runPresampled p2 inputs).map (fun st => st.sampleAggregates) ∧
    (∀ q : GoFloat, (runPresampled p1 inputs).map (fun st => st.Quantile q) =
      (runPresampled p2 inputs).map (fun st => st.Quantile q)) := by
  intro int63 agg iterations numValues inputs r1 r2 p1 p2 h1 h2 h3 h4
  subst h1
  subst h2
  subst h3
  subst h4
  exact ⟨rfl, rfl, fun _ => rfl, rfl, rfl, fun _ => rfl⟩

/-- C9 witness: two identically-constructed Direct resamplers agree on a
concrete run. -/
theorem claim_C9_witness :
    runBasic (fun k => k) (NewBasicResampler SumAggregator 2) [[some 1, some 2]] =
      runBasic (fun k => k) (NewBasicResampler SumAggregator 2) [[some 1, some 2]] :=
  (claim_C9 (fun k => k) SumAggregator 2 3 [[some 1, some 2]] _ _ _ _ rfl rfl rfl rfl).1

/-- C10: `Resample` never modifies the caller's `values` slice, for either
variant and any aggregator — including ones that, like `QuantileAggregator`,
overwrite the buffer they are handed (the model threads the aggregator's
buffer mutation back into the resampler-owned scratch only).  Whenever the
call returns, the caller's slice holds exactly the input contents. -/
theorem claim_C10 : ∀ (int63 : ℕ → ℕ) (r : BasicResampler) (s : PresampledResampler)
    (values : List GoFloat),
    (BasicResampler.Resample int63 r values).map (fun p => p.2) =
      (BasicResampler.Resample int63 r values).map (fun _ => values) ∧
    (PresampledResampler.Resample s values).map (fun p => p.2) =
      (PresampledResampler.Resample s values).map (fun _ => values) :=
  fun int63 r s values => ⟨basicResample_snd int63 r values, presampResample_snd s values⟩

/-- C1 counterexample: a Presampled resampler constructed with `numValues = 2`
accepts `Resample([5])` (length 1 ≠ 2) without any validation: the call
returns normally, proceeds to index the precomputed table (appending the
aggregate `5 × counts[0][0] = 10`), and the state's accumulation — empty at
construction — has changed.  Under the claim the call would have been
rejected at the start with the state unchanged. -/
theorem claim_C1_counterexample :
    (PresampledResampler.Resample (NewPresampledResampler (fun _ => 0) SumAggregator 1 2)
        [some 5]).map (fun p => p.1.sampleAggregates) = some [some 10] ∧
    (NewPresampledResampler (fun _ => 0) SumAggregator 1 2).sampleAggregates = [] := by
  constructor
  · have h := presampResample_aggs (NewPresampledResampler (fun _ => 0) SumAggregator 1 2)
      [some 5] (by decide) (by decide)
    rw [h]
    norm_num [NewPresampledResampler, samplesLoop, sampleRowLoop, aggsOfCounts, scratchOfCounts,
      presampEntry, SumAggregator, gMul, gAdd, sortFloat64s, List.insertionSort,
      List.orderedInsert, List.range_succ, List.range_zero, List.replicate, List.set,
      List.getD, List.foldl]
  · rfl

/-- C1 (amended): `PresampledResampler.Resample` performs no length
validation.  With `len(values) ≤ numValues` (and a never-panicking
aggregator) the call proceeds and returns normally, appending exactly
`iterations` aggregates computed from the first `len(values)` columns of each
count row; with `len(values) > numValues` (and at least one iteration) the
call faults with an index-out-of-range panic part-way through instead of
being rejected at the start. -/
theorem claim_C1 : ∀ (int63 : ℕ → ℕ) (agg : Aggregator) (iterations numValues : ℕ)
    (values : List GoFloat), 0 < numValues →
    (values.length ≤ numValues → (∀ l, (agg.aggregate l).isSome = true) →
      (PresampledResampler.Resample (NewPresampledResampler int63 agg iterations numValues)
          values).isSome = true ∧
      (PresampledResampler.Resample (NewPresampledResampler int63 agg iterations numValues)
          values).map (fun p => p.1.sampleAggregates.length) = some iterations ∧
      (PresampledResampler.Resample (NewPresampledResampler int63 agg iterations numValues)
          values).map (fun p => p.1.sampleAggregates) =
        (aggsOfCounts agg values
            (NewPresampledResampler int63 agg iterations numValues).samples).map
          (fun news => sortFloat64s news)) ∧
    (numValues < values.length → 0 < iterations →
      PresampledResampler.Resample (NewPresampledResampler int63 agg iterations numValues)
        values = none) := by
  intro int63 agg iterations numValues values hpos
  obtain ⟨hslen, hrows⟩ := newPresampled_samples int63 agg iterations numValues hpos
  constructor
  · intro hle haggAll
    have hrows2 : ∀ row ∈ (NewPresampledResampler int63 agg iterations numValues).samples,
        values.length ≤ row.length :=
      fun row hr => le_trans hle (le_of_eq (hrows row hr).1.symm)
    have hiter : (NewPresampledResampler int63 agg iterations numValues).iterations ≤
        (NewPresampledResampler int63 agg iterations numValues).samples.length := by
      rw [hslen]
      exact Nat.le_refl iterations
    have hmap := presampResample_aggs (NewPresampledResampler int63 agg iterations numValues)
      values hrows2 hiter
    have htake : (NewPresampledResampler int63 agg iterations numValues).samples.take
        (NewPresampledResampler int63 agg iterations numValues).iterations =
        (NewPresampledResampler int63 agg iterations numValues).samples := by
      have hi2 : (NewPresampledResampler int63 agg iterations numValues).iterations =
          (NewPresampledResampler int63 agg iterations numValues).samples.length := by
        rw [hslen]
        rfl
      rw [hi2, List.take_length]
    rw [htake] at hmap
    have hagg0 : (NewPresampledResampler int63 agg iterations numValues).aggregator = agg := rfl
    have hold : (NewPresampledResampler int63 agg iterations numValues).sampleAggregates =
        [] := rfl
    rw [hagg0, hold] at hmap
    simp only [List.nil_append] at hmap
    have haggs := aggsOfCounts_total agg values haggAll
      (NewPresampledResampler int63 agg iterations numValues).samples
    cases hr : aggsOfCounts agg values
        (NewPresampledResampler int63 agg iterations numValues).samples with
    | none => rw [hr] at haggs; exact absurd haggs (by simp)
    | some news =>
        rw [hr] at hmap
        have hlen2 : news.length =
            (NewPresampledResampler int63 agg iterations numValues).samples.length :=
          aggsOfCounts_length agg values _ news hr
        cases hres : PresampledResampler.Resample
            (NewPresampledResampler int63 agg iterations numValues) values with
        | none => rw [hres] at hmap; exact absurd hmap (by simp)
        | some p =>
            rw [hres] at hmap
            simp only [Option.map_some', Option.some.injEq] at hmap
            refine ⟨rfl, ?_, ?_⟩
            · simp only [Option.map_some', Option.some.injEq]
              rw [hmap, sortFloat64s_length, hlen2, hslen]
            · simp only [Option.map_some', Option.some.injEq]
              exact hmap
  · intro hgt hit
    have hlen0 : 0 < (NewPresampledResampler int63 agg iterations numValues).samples.length := by
      rw [hslen]
      exact hit
    have hshort : ((NewPresampledResampler int63 agg iterations numValues).samples.get
        ⟨0, hlen0⟩).length < values.length := by
      rw [(hrows _ (List.get_mem _ 0 hlen0)).1]
      exact hgt
    exact presampResample_overflow _ values hlen0 hit hshort

/-- C1 witness: a 2-element input against `numValues = 3` silently proceeds
and appends `iterations = 2` aggregates. -/
theorem claim_C1_witness :
    (PresampledResampler.Resample (NewPresampledResampler (fun k => k) SumAggregator 2 3)
        [some 1, some 2]).map (fun p => p.1.sampleAggregates.length) = some 2 :=
  ((claim_C1 (fun k => k) SumAggregator 2 3 [some 1, some 2] (by decide)).1
    (by decide) (fun l => rfl)).2.1

/-- C2 counterexample: `Resample([])` on a Direct resampler (Sum, 2
iterations) is neither rejected nor an arithmetic fault: Go's inner loop
`for i := range values` has an empty range, so the `% length` expression is
never evaluated; each of the 2 iterations aggregates the empty scratch and
appends `Sum([]) = 0`.  The empty input thus produces two appended sample
aggregates, contradicting the claim on both counts. -/
theorem claim_C2_counterexample :
    (BasicResampler.Resample (fun _ => 0) (NewBasicResampler SumAggregator 2) []).map
        (fun p => p.1.sampleAggregates) = some [some 0, some 0] := by
  rw [basicResample_nil (fun _ => 0) (NewBasicResampler SumAggregator 2) (some 0) [] rfl]
  simp [NewBasicResampler, sortFloat64s, List.insertionSort, List.orderedInsert, goLe, gLt]

/-- C2 (amended): `Resample` on the empty slice is not rejected and does not
fault: the index-selection loop body never executes (so no modulo-by-zero
occurs and the RNG cursor does not advance), and each of the `iterations`
rounds appends the aggregator's value on the empty slice (0.0 for Sum and
Average). -/
theorem claim_C2 : ∀ (int63 : ℕ → ℕ) (r : BasicResampler) (a : GoFloat) (buf : List GoFloat),
    r.aggregator.aggregate [] = some (a, buf) →
    BasicResampler.Resample int63 r [] =
      some ({ r with
        sampleAggregates := sortFloat64s (r.sampleAggregates ++ List.replicate r.iterations a) },
        []) :=
  fun int63 r a buf ha => basicResample_nil int63 r a buf ha

/-- C2 witness: with the Average aggregator and one iteration, the empty
input yields one appended aggregate `Average([]) = 0` and no fault. -/
theorem claim_C2_witness :
    BasicResampler.Resample (fun k => k + 1) (NewBasicResampler AverageAggregator 1) [] =
      some ({ NewBasicResampler AverageAggregator 1 with
        sampleAggregates := sortFloat64s ([] ++ List.replicate 1 (some 0)) },
        []) :=
  claim_C2 (fun k => k + 1) (NewBasicResampler AverageAggregator 1) (some 0) [] rfl

/-- C6: for both variants, every `Resample` call that returns appends exactly
`iterations` new statistics to `sampleAggregates` — the new collection is a
permutation of the old one plus `iterations` new entries, never a replacement
— and is sorted ascending (on NaN-free data, the only regime where Go's sort
guarantees an order); a second call on the result doubles the growth to
`2 × iterations`. -/
theorem claim_C6 :
    (∀ (int63 : ℕ → ℕ) (r : BasicResampler) (values : List GoFloat), values ≠ [] →
      ((BasicResampler.Resample int63 r values).map (fun p => p.1.sampleAggregates.length) =
        (BasicResampler.Resample int63 r values).map
          (fun _ => r.sampleAggregates.length + r.iterations)) ∧
      (∀ p ∈ BasicResampler.Resample int63 r values,
        (∃ news, news.length = r.iterations ∧
          List.Perm p.1.sampleAggregates (r.sampleAggregates ++ news)) ∧
        (realList p.1.sampleAggregates → List.Sorted goLe p.1.sampleAggregates) ∧
        ∀ values2, values2 ≠ [] →
          ∀ p2 ∈ BasicResampler.Resample int63 p.1 values2,
            p2.1.sampleAggregates.length = r.sampleAggregates.length + 2 * r.iterations)) ∧
    (∀ (s : PresampledResampler) (values : List GoFloat), values ≠ [] →
      ((PresampledResampler.Resample s values).map (fun p => p.1.sampleAggregates.length) =
        (PresampledResampler.Resample s values).map
          (fun _ => s.sampleAggregates.length + s.iterations)) ∧
      (∀ p ∈ PresampledResampler.Resample s values,
        (∃ news, news.length = s.iterations ∧
          List.Perm p.1.sampleAggregates (s.sampleAggregates ++ news)) ∧
        (realList p.1.sampleAggregates → List.Sorted goLe p.1.sampleAggregates) ∧
        ∀ values2, values2 ≠ [] →
          ∀ p2 ∈ PresampledResampler.Resample p.1 values2,
            p2.1.sampleAggregates.length = s.sampleAggregates.length + 2 * s.iterations)) := by
  constructor
  · intro int63 r values hne
    constructor
    · cases hres : BasicResampler.Resample int63 r values with
      | none => rfl
      | some p =>
          obtain ⟨st, vout⟩ := p
          obtain ⟨-, -, -, news, hn, hs⟩ := basicResample_some int63 r values st vout hres
          simp only [Option.map_some', Option.some.injEq]
          rw [hs, sortFloat64s_length, List.length_append, hn]
    · intro p hp
      obtain ⟨hv, hagg, hit, news, hn, hs⟩ :=
        basicResample_some int63 r values p.1 p.2 (Option.mem_def.mp hp)
      refine ⟨⟨news, hn, ?_⟩, ?_, ?_⟩
      · rw [hs]
        exact sortFloat64s_perm _
      · intro hreal
        rw [hs] at hreal ⊢
        exact sorted_sortFloat64s _ (realList_of_perm (sortFloat64s_perm _) hreal)
      · intro values2 hne2 p2 hp2
        obtain ⟨-, -, -, news2, hn2, hs2⟩ :=
          basicResample_some int63 p.1 values2 p2.1 p2.2 (Option.mem_def.mp hp2)
        have h1 : p.1.sampleAggregates.length = r.sampleAggregates.length + r.iterations := by
          rw [hs, sortFloat64s_length, List.length_append, hn]
        have h2 : p2.1.sampleAggregates.length =
            p.1.sampleAggregates.length + p.1.iterations := by
          rw [hs2, sortFloat64s_length, List.length_append, hn2]
        rw [h2, h1, hit]
        omega
  · intro s values hne
    constructor
    · cases hres : PresampledResampler.Resample s values with
      | none => rfl
      | some p =>
          obtain ⟨st, vout⟩ := p
          obtain ⟨-, -, -, -, news, hn, hs⟩ := presampResample_some s values st vout hres
          simp only [Option.map_some', Option.some.injEq]
          rw [hs, sortFloat64s_length, List.length_append, hn]
    · intro p hp
      obtain ⟨hv, hagg, hit, hsam, news, hn, hs⟩ :=
        presampResample_some s values p.1 p.2 (Option.mem_def.mp hp)
      refine ⟨⟨news, hn, ?_⟩, ?_, ?_⟩
      · rw [hs]
        exact sortFloat64s_perm _
      · intro hreal
        rw [hs] at hreal ⊢
        exact sorted_sortFloat64s _ (realList_of_perm (sortFloat64s_perm _) hreal)
      · intro values2 hne2 p2 hp2
        obtain ⟨-, -, -, -, news2, hn2, hs2⟩ :=
          presampResample_some p.1 values2 p2.1 p2.2 (Option.mem_def.mp hp2)
        have h1 : p.1.sampleAggregates.length = s.sampleAggregates.length + s.iterations := by
          rw [hs, sortFloat64s_length, List.length_append, hn]
        have h2 : p2.1.sampleAggregates.length =
            p.1.sampleAggregates.length + p.1.iterations := by
          rw [hs2, sortFloat64s_length, List.length_append, hn2]
        rw [h2, h1, hit]
        omega

/-- C6 witness: a fresh Direct resampler with 2 iterations grows its (empty)
collection to size `0 + 2` on a non-empty input. -/
theorem claim_C6_witness :
    (BasicResampler.Resample (fun _ => 0) (NewBasicResampler SumAggregator 2)
        [some 1, some 5]).map (fun p => p.1.sampleAggregates.length) =
      (BasicResampler.Resample (fun _ => 0) (NewBasicResampler SumAggregator 2)
        [some 1, some 5]).map (fun _ => 0 + 2) :=
  (claim_C6.1 (fun _ => 0) (NewBasicResampler SumAggregator 2) [some 1, some 5] (by decide)).1

/-- C8: when every table row has exactly `len(values)` columns (the
`len(values) = numValues` contract) and the iteration count does not exceed
the table, iteration `i` of the Presampled `Resample` hands the aggregator
exactly the scratch `[values[j] × counts[i][j] : j < len(values)]`
(`scratchOfCounts` — no reordering or index-selection of `values`), and the
results are appended to the old collection and sorted — the same append-sort
shape every Direct `Resample` produces. -/
theorem claim_C8 : ∀ (r : PresampledResampler) (values : List GoFloat),
    (∀ row ∈ r.samples, row.length = values.length) →
    r.iterations ≤ r.samples.length →
    ((PresampledResampler.Resample r values).map (fun p => p.1.sampleAggregates) =
      (aggsOfCounts r.aggregator values (r.samples.take r.iterations)).map
        (fun news => sortFloat64s (r.sampleAggregates ++ news))) ∧
    (∀ (int63 : ℕ → ℕ) (rb : BasicResampler) (values2 : List GoFloat),
      ∀ p ∈ BasicResampler.Resample int63 rb values2,
        ∃ news, news.length = rb.iterations ∧
          p.1.sampleAggregates = sortFloat64s (rb.sampleAggregates ++ news)) := by
  intro r values hrows hiter
  refine ⟨presampResample_aggs r values
    (fun row hr => le_of_eq (hrows row hr).symm) hiter, ?_⟩
  intro int63 rb values2 p hp
  obtain ⟨-, -, -, news, hn, hs⟩ :=
    basicResample_some int63 rb values2 p.1 p.2 (Option.mem_def.mp hp)
  exact ⟨news, hn, hs⟩

/-- C8 witness: with counts row `[2,0]` and input `[7,8]`, the single
iteration aggregates the scratch `[7×2, 8×0]` to `14`. -/
theorem claim_C8_witness :
    (PresampledResampler.Resample (NewPresampledResampler (fun _ => 0) SumAggregator 1 2)
        [some 7, some 8]).map (fun p => p.1.sampleAggregates) = some [some 14] := by
  have h := (claim_C8 (NewPresampledResampler (fun _ => 0) SumAggregator 1 2)
    [some 7, some 8] (by decide) (by decide)).1
  rw [h]
  norm_num [NewPresampledResampler, samplesLoop, sampleRowLoop, aggsOfCounts, scratchOfCounts,
    presampEntry, SumAggregator, gMul, gAdd, sortFloat64s, List.insertionSort,
    List.orderedInsert, List.range_succ, List.range_zero, List.replicate, List.set,
    List.getD, List.foldl, List.take]

end Bootstrap
